import Mathlib

/-!
Verification of the transform stage of the Finance-Data ETL pipeline
(`src/transform/data_transformer.py`, class `DataTransformer`).

Datasets are embedded as lists of typed rows.  Numeric cells arriving from
extraction are loosely typed, which we model with `Raw` (a cell that parses
to a number, a cell that does not, or a null).  Pandas float columns carry
NaN and signed infinities; where those matter we use the `EF` type of
extended values (exact rationals plus pinf, ninf, nan), with IEEE-754
special-value rules for the operations the code performs.  Timestamps such
as `transformed_at` are audit metadata with no data dependency and are not
modelled.  The current processing instant (`datetime.now()`) is passed as an
explicit parameter where the code consumes it.
-/

/-- A raw tabular cell as handed to `pd.to_numeric(..., errors=coerce)`:
either it parses to a number, or it is an unparsable string, or a null. -/
inductive Raw where
  | num : ℚ → Raw
  | unparsable : Raw
  | null : Raw
deriving DecidableEq, Repr, Inhabited

/-- `pd.to_numeric(col, errors=coerce)` on one cell: unparsable cells and
nulls silently become missing (NaN); no error is ever raised. -/
def toNumeric : Raw → Option ℚ
  | Raw.num q => some q
  | Raw.unparsable => none
  | Raw.null => none

/-- Extended float value: an exact rational, a signed infinity, or NaN.
This models the pandas float64 cell values the transform produces,
with exact (unrounded) rational arithmetic for the finite case. -/
inductive EF where
  | fin : ℚ → EF
  | pinf : EF
  | ninf : EF
  | nan : EF
deriving DecidableEq, Repr, Inhabited

/-- Lift a missing-or-present rational to `EF` (missing is NaN). -/
def ofOpt : Option ℚ → EF
  | some q => EF.fin q
  | none => EF.nan

/-- IEEE-754 division as numpy/pandas perform it on float columns:
finite / 0 is a signed infinity (NaN for 0 / 0), any NaN operand gives NaN,
finite / infinity is 0, infinity / infinity is NaN. -/
def EF.div : EF → EF → EF
  | EF.fin a, EF.fin b =>
      if b = 0 then
        (if 0 < a then EF.pinf else if a < 0 then EF.ninf else EF.nan)
      else EF.fin (a / b)
  | EF.fin _, EF.pinf => EF.fin 0
  | EF.fin _, EF.ninf => EF.fin 0
  | EF.pinf, EF.fin b => if 0 ≤ b then EF.pinf else EF.ninf
  | EF.ninf, EF.fin b => if 0 ≤ b then EF.ninf else EF.pinf
  | EF.pinf, EF.pinf => EF.nan
  | EF.pinf, EF.ninf => EF.nan
  | EF.ninf, EF.pinf => EF.nan
  | EF.ninf, EF.ninf => EF.nan
  | EF.nan, _ => EF.nan
  | _, EF.nan => EF.nan

/-- Multiplication by the positive constant 100, as in `(... / open) * 100`:
infinities and NaN are preserved, finite values are scaled. -/
def EF.times100 : EF → EF
  | EF.fin a => EF.fin (a * 100)
  | EF.pinf => EF.pinf
  | EF.ninf => EF.ninf
  | EF.nan => EF.nan

/-- The finite values of a list of extended values, in order.  Pandas
rolling statistics see neither NaN nor infinite cells:
`BaseWindow._prep_values` replaces each infinite cell with NaN
individually before the rolling kernel runs, and the kernel then skips
NaN cells (they also do not count toward `min_periods`). -/
def finVals (l : List EF) : List ℚ :=
  l.filterMap (fun v => match v with | EF.fin q => some q | _ => none)

/-- The trailing `n` elements of a list (the rolling window ending at the
last element). -/
def lastN (n : ℕ) (l : List α) : List α :=
  l.drop (l.length - n)

/-- Arithmetic mean of a list of rationals (callers only use it on
nonempty lists). -/
def listMean (l : List ℚ) : ℚ :=
  l.sum / (l.length : ℚ)

/-- Sample variance (ddof = 1), the square of the standard deviation pandas
`rolling(...).std()` computes; callers only use it on lists of length at
least two. -/
def sampleVar (l : List ℚ) : ℚ :=
  ((l.map (fun x => (x - listMean l) ^ 2)).sum) / ((l.length : ℚ) - 1)

/-- Sample variance of one rolling window of `daily_return` cells, or
`none` when pandas `rolling(30, min_periods=1).std()` leaves the cell NaN.
`_prep_values` turns each infinite cell into NaN individually, so the
kernel computes the sample standard deviation of the finite cells of the
window, and the cell is NaN exactly when fewer than two finite cells
remain (the standard deviation of a single value is NaN under ddof = 1).
The column itself stores the square root of this value; see
`volatility_30d`. -/
def varOfWindow (l : List EF) : Option ℚ :=
  let v := finVals l
  if v.length < 2 then none else some (sampleVar v)

/-- `Series.pct_change` at the newest position of a series prefix: relative
change from the second-to-last to the last value, NaN when there is no
predecessor, with float division rules for a zero predecessor. -/
def pctChangeLast (cs : List ℚ) : EF :=
  match cs.reverse with
  | cur :: prev :: _ => EF.div (EF.fin (cur - prev)) (EF.fin prev)
  | _ => EF.nan

/-- Helper for `dropDupKeepFirst`: walk the rows in order, keeping a row
exactly when its key has not been seen before, and recording the keys of
processed rows in `seen`. -/
def dropDupAux (key : α → β) [DecidableEq β] (seen : List β) : List α → List α
  | [] => []
  | x :: xs =>
      if key x ∈ seen then dropDupAux key seen xs
      else x :: dropDupAux key (key x :: seen) xs

/-- `DataFrame.drop_duplicates(subset=key)` with the pandas default
`keep=first`: the first row bearing each key survives, later rows with a
key already seen are removed; relative order is preserved. -/
def dropDupKeepFirst (key : α → β) [DecidableEq β] (l : List α) : List α :=
  dropDupAux key [] l

/-- Lower-case the characters of a string (`str.lower()`), viewed as a
character list. -/
def lowerChars (s : String) : List Char :=
  s.data.map Char.toLower

/-- `str.contains(pat)` for a literal pattern: does `needle` occur as a
contiguous substring of `hay`? -/
def containsSub (hay needle : List Char) : Bool :=
  (List.range (hay.length + 1)).any (fun i => needle.isPrefixOf (hay.drop i))

/-- Specification-side reading of substring presence: `needle` occurs in
`hay` exactly when `hay` splits as `pre ++ needle ++ post`. -/
def OccursIn (needle hay : List Char) : Prop :=
  ∃ pre post, hay = pre ++ needle ++ post

/-- Multiply two possibly-missing numbers, propagating missing (NaN). -/
def omul : Option ℚ → Option ℚ → Option ℚ
  | some a, some b => some (a * b)
  | _, _ => none

/-- Subtract two possibly-missing numbers, propagating missing (NaN). -/
def osub : Option ℚ → Option ℚ → Option ℚ
  | some a, some b => some (a - b)
  | _, _ => none

/-! ## Stock pipeline (`DataTransformer.transform_stock_data`) -/

/-- A raw stock row as extraction hands it over: `date` already parses
(`pd.to_datetime` would raise otherwise, which is outside every claim),
the OHLCV columns are loose cells.  The pass-through
`extraction_timestamp` column carries no data dependency and is not
modelled. -/
structure StockRaw where
  symbol : String
  date : ℤ
  open_ : Raw
  high : Raw
  low : Raw
  close : Raw
  volume : Raw
deriving DecidableEq, Repr

/-- A stock row after step 1 of the transform (type coercions): every
numeric column is a possibly-missing rational. -/
structure StockCoerced where
  symbol : String
  date : ℤ
  open_ : Option ℚ
  high : Option ℚ
  low : Option ℚ
  close : Option ℚ
  volume : Option ℚ
deriving DecidableEq, Repr

/-- A stock row after step 2 (missing-value handling): `close` is present
(rows with missing close were dropped) and `volume` was filled with 0. -/
structure StockNorm where
  symbol : String
  date : ℤ
  open_ : Option ℚ
  high : Option ℚ
  low : Option ℚ
  close : ℚ
  volume : ℚ
deriving DecidableEq, Repr, Inhabited

/-- Step 1: `pd.to_numeric(df[col], errors=coerce)` on each OHLCV column. -/
def coerceStock (r : StockRaw) : StockCoerced :=
  { symbol := r.symbol
    date := r.date
    open_ := toNumeric r.open_
    high := toNumeric r.high
    low := toNumeric r.low
    close := toNumeric r.close
    volume := toNumeric r.volume }

/-- Steps 1 and 2: coerce, `dropna(subset=[close])`, then
`volume.fillna(0)`; the surviving rows are re-expressed with their
now-guaranteed `close`. -/
def normalizeStock (df : List StockRaw) : List StockNorm :=
  ((df.map coerceStock).filter (fun r => r.close.isSome)).filterMap
    (fun r => r.close.map (fun c =>
      { symbol := r.symbol
        date := r.date
        open_ := r.open_
        high := r.high
        low := r.low
        close := c
        volume := r.volume.getD 0 }))

/-- The symbol of the normalized row at position `i` (as `groupby(symbol)`
reads it). -/
def rowSymbol (df : List StockNorm) (i : ℕ) : String :=
  (df.getD i default).symbol

/-- The close of the normalized row at position `i`. -/
def closeAt (df : List StockNorm) (i : ℕ) : ℚ :=
  (df.getD i default).close

/-- The date of the normalized row at position `i`. -/
def dateAt (df : List StockNorm) (i : ℕ) : ℤ :=
  (df.getD i default).date

/-- The positions, up to and including `i`, of the rows in symbol group
`s` — the part of the `groupby(symbol)` group that a rolling or
`pct_change` computation aligned at position `i` can see. -/
def symIdx (df : List StockNorm) (s : String) (i : ℕ) : List ℕ :=
  (List.range (i + 1)).filter (fun j => decide (rowSymbol df j = s))

/-- The closes of the group prefix `symIdx df s i`, in row order. -/
def closesAt (df : List StockNorm) (s : String) (i : ℕ) : List ℚ :=
  (symIdx df s i).map (closeAt df)

/-- `groupby(symbol)[close].pct_change()` aligned at position `i`:
relative change of the close from the previous row of the same symbol. -/
def dailyReturnAt (df : List StockNorm) (i : ℕ) : EF :=
  pctChangeLast (closesAt df (rowSymbol df i) i)

/-- `groupby(symbol)[close].transform(rolling(w, min_periods=1).mean())`
aligned at position `i`: mean of the trailing up-to-`w` closes of the
group (the window always holds at least the row itself). -/
def maAt (w : ℕ) (df : List StockNorm) (i : ℕ) : ℚ :=
  listMean (lastN w (closesAt df (rowSymbol df i) i))

/-- `groupby(symbol)[daily_return].transform(rolling(30, min_periods=1).std())`
aligned at position `i`, carried as the squared value (sample variance);
`none` is the NaN cell. -/
def volSqAt (df : List StockNorm) (i : ℕ) : Option ℚ :=
  varOfWindow (lastN 30 ((symIdx df (rowSymbol df i) i).map (dailyReturnAt df)))

/-- A fully featurized stock row (steps 3 and 4 of the transform).
`volatility_30d_sq` carries the square of the source column
`volatility_30d` (its sample variance); the column itself, an irrational
square root, is recovered by `volatility_30d` below. -/
structure StockFeat where
  symbol : String
  date : ℤ
  open_ : Option ℚ
  high : Option ℚ
  low : Option ℚ
  close : ℚ
  volume : ℚ
  daily_return : EF
  price_range : Option ℚ
  price_change : Option ℚ
  price_change_pct : EF
  ma_7 : ℚ
  ma_30 : ℚ
  volatility_30d_sq : Option ℚ
deriving DecidableEq, Repr, Inhabited

/-- The `volatility_30d` column as the source stores it: the standard
deviation, i.e. the square root of the rolling sample variance. -/
noncomputable def volatility_30d (r : StockFeat) : Option ℝ :=
  r.volatility_30d_sq.map Real.sqrt

/-- Steps 3 and 4 applied to the row at position `i`: the row-wise derived
columns (`price_range`, `price_change`, `price_change_pct`) and the
group-aligned columns (`daily_return`, `ma_7`, `ma_30`, `volatility_30d`). -/
def mkFeatRow (df : List StockNorm) (i : ℕ) : StockFeat :=
  let r := df.getD i default
  { symbol := r.symbol
    date := r.date
    open_ := r.open_
    high := r.high
    low := r.low
    close := r.close
    volume := r.volume
    daily_return := dailyReturnAt df i
    price_range := osub r.high r.low
    price_change := osub (some r.close) r.open_
    price_change_pct := ((ofOpt (osub (some r.close) r.open_)).div (ofOpt r.open_)).times100
    ma_7 := maAt 7 df i
    ma_30 := maAt 30 df i
    volatility_30d_sq := volSqAt df i }

/-- Steps 3 and 4 over the whole dataset: every column assignment is a
function of the normalized frame, aligned back by position. -/
def addFeatures (df : List StockNorm) : List StockFeat :=
  (List.range df.length).map (mkFeatRow df)

/-- The featurized row at position `i` of the pipeline output of steps
1 to 4. -/
def featRow (df : List StockNorm) (i : ℕ) : StockFeat :=
  (addFeatures df).getD i default

/-- Step 5 (validation): keep rows with `close > 0`, then rows with
`volume >= 0`; offending rows are silently excluded. -/
def validateStock (df : List StockFeat) : List StockFeat :=
  (df.filter (fun r => decide (0 < r.close))).filter (fun r => decide (0 ≤ r.volume))

/-- The (symbol, date) deduplication key of step 6. -/
def stockKey (r : StockFeat) : String × ℤ :=
  (r.symbol, r.date)

/-- The stock frame after steps 1 to 5, i.e. just before deduplication. -/
def stockPreDedup (df : List StockRaw) : List StockFeat :=
  validateStock (addFeatures (normalizeStock df))

/-- `DataTransformer.transform_stock_data`: the empty frame is returned
unchanged by the early guard; otherwise coercion, missing-value handling,
feature engineering, validation and deduplication run in order.  The
Python function can raise only for structurally alien frames that the
typed row representation excludes, so the `Except` result is total here. -/
def transform_stock_data (df : List StockRaw) : Except String (List StockFeat) :=
  if df.isEmpty then Except.ok []
  else Except.ok (dropDupKeepFirst stockKey (stockPreDedup df))

/-- The rows of a transform result (the empty frame for the error case,
which the transforms here never produce). -/
def rowsOf : Except String (List α) → List α
  | Except.ok l => l
  | Except.error _ => []

/-! ## Crypto pipeline (`DataTransformer.transform_crypto_data`) -/

/-- A raw crypto tick.  Pass-through columns (`volume_24h`, `change_24h`)
carry no data dependency in the transform and are not modelled. -/
structure CryptoRaw where
  crypto_id : String
  timestamp : ℤ
  price_usd : Raw
  market_cap : Raw
deriving DecidableEq, Repr

/-- A transformed crypto tick: coerced numerics, present `price_usd`, and
the derived `price_category` label (`none` is the NaN category cell
`pd.cut` leaves for values outside every bin). -/
structure CryptoOut where
  crypto_id : String
  timestamp : ℤ
  price_usd : ℚ
  market_cap : Option ℚ
  price_category : Option String
deriving DecidableEq, Repr, Inhabited

/-- `pd.cut(price_usd, bins=[0,100,1000,10000,inf], labels=[...])` on one
value: with the pandas default `right=True` the bins are the
right-closed intervals (0,100], (100,1000], (1000,10000], (10000,inf);
values at or below 0 fall outside every bin and get a missing category. -/
def priceCut (p : ℚ) : Option String :=
  if p ≤ 0 then none
  else if p ≤ 100 then some "low"
  else if p ≤ 1000 then some "medium"
  else if p ≤ 10000 then some "high"
  else some "very_high"

/-- Steps 1 to 3 of the crypto transform on one row: coerce `price_usd`
and `market_cap`, drop the row when `price_usd` is missing, bucket the
price. -/
def transformCryptoRow (r : CryptoRaw) : Option CryptoOut :=
  (toNumeric r.price_usd).map (fun p =>
    { crypto_id := r.crypto_id
      timestamp := r.timestamp
      price_usd := p
      market_cap := toNumeric r.market_cap
      price_category := priceCut p })

/-- `DataTransformer.transform_crypto_data`: early-return for the empty
frame, otherwise coercion, `dropna(subset=[price_usd])` and price
bucketing; no path raises on a typed row. -/
def transform_crypto_data (df : List CryptoRaw) : Except String (List CryptoOut) :=
  if df.isEmpty then Except.ok []
  else Except.ok (df.filterMap transformCryptoRow)

/-! ## News pipeline (`DataTransformer.transform_news_data`) -/

/-- A raw news row.  `url` is a pass-through column kept here because it
distinguishes otherwise-identical rows under deduplication; `scraped_at`
carries no dependency and is not modelled. -/
structure NewsRaw where
  symbol : String
  title : String
  url : String
deriving DecidableEq, Repr

/-- A transformed news row: trimmed title, its length, and the ten
keyword flags of the loop `for keyword in keywords`, in vocabulary
order (`has_flags[i]` is the column `has_<newsKeywords[i]>`). -/
structure NewsOut where
  symbol : String
  title : String
  url : String
  title_length : ℕ
  has_flags : List Bool
deriving DecidableEq, Repr, Inhabited

/-- The fixed keyword vocabulary of the text classifier, in source
order. -/
def newsKeywords : List String :=
  ["earnings", "merger", "acquisition", "revenue", "profit",
   "loss", "growth", "decline", "bullish", "bearish"]

/-- The `has_profit` column (vocabulary index 4). -/
def hasProfit (r : NewsOut) : Bool :=
  r.has_flags.getD 4 false

/-- Steps 1 and 2 of the news transform on one row: strip the title,
record its length, and tag case-insensitive substring presence of each
keyword (`title.str.lower().str.contains(keyword)`). -/
def transformNewsRow (r : NewsRaw) : NewsOut :=
  let t := r.title.trim
  { symbol := r.symbol
    title := t
    url := r.url
    title_length := t.length
    has_flags := newsKeywords.map (fun kw => containsSub (lowerChars t) kw.data) }

/-- The (title, symbol) deduplication key of the news transform (the
title has been trimmed by the time step 3 runs). -/
def newsKey (r : NewsOut) : String × String :=
  (r.title, r.symbol)

/-- The news frame just before deduplication. -/
def newsPreDedup (df : List NewsRaw) : List NewsOut :=
  df.map transformNewsRow

/-- `DataTransformer.transform_news_data`: early-return for the empty
frame, otherwise text cleaning, keyword tagging and deduplication on
(title, symbol) with the pandas default keep-first. -/
def transform_news_data (df : List NewsRaw) : Except String (List NewsOut) :=
  if df.isEmpty then Except.ok []
  else Except.ok (dropDupKeepFirst newsKey (newsPreDedup df))

/-! ## Portfolio pipeline (`DataTransformer.transform_portfolio_data`) -/

/-- A raw portfolio holding: `purchase_date` already parses
(`pd.to_datetime` would raise otherwise), expressed in days since the
epoch with a fractional part for the time of day; `quantity` and
`purchase_price` are loose cells.  Pass-through columns (`user_id`,
`asset_type`, `created_at`) are not modelled. -/
structure PortfolioRaw where
  symbol : String
  quantity : Raw
  purchase_price : Raw
  purchase_date : ℚ
deriving DecidableEq, Repr, Inhabited

/-- A transformed holding: coerced numerics plus the derived `cost_basis`
and `holding_days`. -/
structure PortfolioOut where
  symbol : String
  quantity : Option ℚ
  purchase_price : Option ℚ
  purchase_date : ℚ
  cost_basis : Option ℚ
  holding_days : ℤ
deriving DecidableEq, Repr, Inhabited

/-- Steps 1 and 2 of the portfolio transform on one row at processing
instant `now` (in days since the epoch): coerce the numerics, multiply
for `cost_basis`, and take `(datetime.now() - purchase_date).dt.days`,
the whole-day count of the timedelta, which floors. -/
def transformPortfolioRow (now : ℚ) (r : PortfolioRaw) : PortfolioOut :=
  { symbol := r.symbol
    quantity := toNumeric r.quantity
    purchase_price := toNumeric r.purchase_price
    purchase_date := r.purchase_date
    cost_basis := omul (toNumeric r.quantity) (toNumeric r.purchase_price)
    holding_days := ⌊now - r.purchase_date⌋ }

/-- `DataTransformer.transform_portfolio_data` at processing instant
`now`: early-return for the empty frame, otherwise row-wise coercion and
derivation; no row is dropped and no path raises on a typed row. -/
def transform_portfolio_data (now : ℚ) (df : List PortfolioRaw) : Except String (List PortfolioOut) :=
  if df.isEmpty then Except.ok []
  else Except.ok (df.map (transformPortfolioRow now))

/-- Dates strictly increase within each symbol group of a normalized
stock frame: the hypothesis under which positional order within a group
is chronological order.  (The claims about per-symbol series are stated
under this hypothesis.) -/
def DateSortedPerSymbol (df : List StockNorm) : Prop :=
  ∀ j, j < df.length → ∀ i, i < j → rowSymbol df i = rowSymbol df j →
    dateAt df i < dateAt df j

instance : DecidablePred DateSortedPerSymbol := fun df => by
  unfold DateSortedPerSymbol
  infer_instance

/-! ## Specification-side descriptions and concrete datasets -/

/-- Specification-side view of a symbol group: the closes of all rows of
symbol `s`, in row order (chronological order under
`DateSortedPerSymbol`). -/
def symCloses (df : List StockNorm) (s : String) : List ℚ :=
  (df.filter (fun r => decide (r.symbol = s))).map (fun r => r.close)

/-- Specification-side count: how many rows of symbol `s` occur among the
first `i + 1` rows, i.e. the 1-based rank of row `i` inside its group
when row `i` has symbol `s`. -/
def symCountPrefix (df : List StockNorm) (s : String) (i : ℕ) : ℕ :=
  ((df.take (i + 1)).filter (fun r => decide (r.symbol = s))).length

/-- Did an `Except`-modelled transform return normally? -/
def isOkE : Except ε α → Bool
  | Except.ok _ => true
  | Except.error _ => false

/-- Build a fully-numeric raw stock row. -/
def mkSRaw (sym : String) (d : ℤ) (o h l c v : ℚ) : StockRaw :=
  { symbol := sym, date := d, open_ := Raw.num o, high := Raw.num h,
    low := Raw.num l, close := Raw.num c, volume := Raw.num v }

/-- Two AAPL bars for the same date whose closes differ (the end-to-end
duplicate scenario of the specification: closes 100 and 105, the 105 row
arriving later). -/
def dupDemoS : List StockRaw :=
  [mkSRaw "AAPL" 0 100 110 90 100 1000, mkSRaw "AAPL" 0 100 110 90 105 1000]

/-- Two news rows sharing (title, symbol) but with different urls. -/
def dupDemoN : List NewsRaw :=
  [{ symbol := "AAPL", title := "Apple rises", url := "u1" },
   { symbol := "AAPL", title := "Apple rises", url := "u2" }]

/-- One bar whose open is 0 and whose close is positive. -/
def zeroOpenDemo : List StockRaw :=
  [mkSRaw "A" 0 0 6 0 5 10]

/-- One crypto tick priced exactly at the 100 boundary. -/
def cryptoDemo100 : List CryptoRaw :=
  [{ crypto_id := "bitcoin", timestamp := 0, price_usd := Raw.num 100,
     market_cap := Raw.num 1 }]

/-- One crypto tick priced strictly inside the low bucket. -/
def cryptoDemo50 : List CryptoRaw :=
  [{ crypto_id := "ethereum", timestamp := 0, price_usd := Raw.num 50,
     market_cap := Raw.null }]

/-- A symbol-A series whose first bar has a negative close (it will be
dropped by validation after the rolling indicators have already read
it). -/
def leakDemo : List StockRaw :=
  [mkSRaw "A" 0 1 1 1 (-5) 1, mkSRaw "A" 1 1 1 1 10 1]

/-- A three-bar normalized series for one symbol with strictly increasing
dates. -/
def stockW : List StockNorm :=
  [{ symbol := "A", date := 0, open_ := some 1, high := some 1, low := some 1,
     close := 10, volume := 1 },
   { symbol := "A", date := 1, open_ := some 1, high := some 1, low := some 1,
     close := 20, volume := 1 },
   { symbol := "A", date := 2, open_ := some 1, high := some 1, low := some 1,
     close := 30, volume := 1 }]

/-- A normalized bar whose open is 0 and whose close is positive. -/
def zeroOpenNorm : List StockNorm :=
  [{ symbol := "A", date := 0, open_ := some 0, high := some 6, low := some 0,
     close := 5, volume := 10 }]

/-- One holding: 2 units bought at 2500.00, purchased at the midnight
starting the processing day. -/
def portDemo : List PortfolioRaw :=
  [{ symbol := "GOOG", quantity := Raw.num 2, purchase_price := Raw.num 2500,
     purchase_date := 0 }]

/-- One news row whose title contains "profitability". -/
def profDemo : List NewsRaw :=
  [{ symbol := "ACME", title := "Company reports record profitability",
     url := "u" }]

/-! ## Helper lemmas -/

theorem length_addFeatures (df : List StockNorm) :
    (addFeatures df).length = df.length := by
  simp [addFeatures]

theorem featRow_eq (df : List StockNorm) (i : ℕ) (hi : i < df.length) :
    featRow df i = mkFeatRow df i := by
  unfold featRow addFeatures
  rw [List.getD_eq_getElem?_getD, List.getElem?_map, List.getElem?_range hi]
  rfl

theorem filter_range_succ (P : ℕ → Bool) (n : ℕ) :
    (List.range (n + 1)).filter P
      = (List.range n).filter P ++ (if P n then [n] else []) := by
  rw [List.range_succ, List.filter_append]
  by_cases h : P n <;> simp [h]

theorem filter_range_nil (P : ℕ → Bool) (n : ℕ) (h : ∀ k, k < n → P k = false) :
    (List.range n).filter P = [] := by
  apply List.filter_eq_nil_iff.mpr
  intro a ha
  simp [h a (List.mem_range.mp ha)]

theorem filter_range_stable (P : ℕ → Bool) (p n : ℕ) (hpn : p < n)
    (h : ∀ k, p < k → k < n → P k = false) :
    (List.range n).filter P = (List.range (p + 1)).filter P := by
  induction n with
  | zero => omega
  | succ m ih =>
    rcases Nat.lt_or_ge p m with hm | hm
    · have hPm : P m = false := h m hm (by omega)
      rw [filter_range_succ, ih hm (fun k h1 h2 => h k h1 (by omega)), hPm]
      simp
    · have hp : p = m := by omega
      subst hp
      rfl

theorem filter_range_head (P : ℕ → Bool) (n j : ℕ) (rest : List ℕ)
    (h : (List.range n).filter P = j :: rest) :
    P j = true ∧ ∀ m, m < j → P m = false := by
  have hj : j ∈ (List.range n).filter P := by rw [h]; exact List.mem_cons_self _ _
  have hPj := (List.mem_filter.mp hj).2
  refine ⟨hPj, fun m hm => ?_⟩
  by_contra hc
  have hPm : P m = true := by revert hc; cases hP : P m <;> simp
  have hjn : j < n := List.mem_range.mp (List.mem_filter.mp hj).1
  have hmem : m ∈ (List.range n).filter P :=
    List.mem_filter.mpr ⟨List.mem_range.mpr (by omega), hPm⟩
  rw [h] at hmem
  rcases List.mem_cons.mp hmem with rfl | hmr
  · omega
  · have hp : ((List.range n).filter P).Pairwise (· < ·) :=
      (List.pairwise_lt_range n).filter P
    rw [h] at hp
    have := (List.pairwise_cons.mp hp).1 m hmr
    omega

theorem range_filter_map_take {γ : Type} (df : List StockNorm) (s : String)
    (f : StockNorm → γ) :
    ∀ n, n ≤ df.length →
      ((List.range n).filter (fun j => decide (rowSymbol df j = s))).map
          (fun j => f (df.getD j default))
        = ((df.take n).filter (fun r => decide (r.symbol = s))).map f := by
  intro n
  induction n with
  | zero => intro _; simp
  | succ m ih =>
    intro hm
    have hmlen : m < df.length := by omega
    obtain ⟨r, hr⟩ : ∃ r, df[m]? = some r := ⟨_, List.getElem?_eq_getElem hmlen⟩
    have hgd : df.getD m default = r := by
      rw [List.getD_eq_getElem?_getD, hr]; rfl
    have hsym : rowSymbol df m = r.symbol := by rw [rowSymbol, hgd]
    rw [List.range_succ, List.filter_append, List.map_append, ih (by omega),
      List.take_succ, hr, List.filter_append, List.map_append]
    by_cases h : r.symbol = s
    · simp [hsym, h, hgd, hr]
    · simp [hsym, h, hgd, hr]

theorem closesAt_eq (df : List StockNorm) (s : String) (i : ℕ)
    (hi : i < df.length) :
    closesAt df s i
      = ((df.take (i + 1)).filter (fun r => decide (r.symbol = s))).map
          (fun r => r.close) := by
  unfold closesAt symIdx closeAt
  exact range_filter_map_take df s (fun r => r.close) (i + 1) (by omega)

theorem symCloses_take (df : List StockNorm) (s : String) (i : ℕ) :
    (symCloses df s).take (symCountPrefix df s i)
      = ((df.take (i + 1)).filter (fun r => decide (r.symbol = s))).map
          (fun r => r.close) := by
  have hsplit : df.filter (fun r => decide (r.symbol = s))
      = (df.take (i + 1)).filter (fun r => decide (r.symbol = s))
        ++ (df.drop (i + 1)).filter (fun r => decide (r.symbol = s)) := by
    rw [← List.filter_append, List.take_append_drop]
  unfold symCloses
  rw [hsplit, List.map_append]
  exact List.take_left' (by simp [symCountPrefix])

theorem featSym_col (df : List StockNorm) (s : String) (i : ℕ)
    (hi : i < df.length) :
    (((addFeatures df).take (i + 1)).filter (fun r => decide (r.symbol = s))).map
        (fun r => r.daily_return)
      = (symIdx df s i).map (dailyReturnAt df) := by
  unfold addFeatures symIdx
  rw [← List.map_take, List.take_range, Nat.min_eq_left (by omega : i + 1 ≤ df.length),
    List.filter_map, List.map_map]
  rfl

theorem dropDupAux_spec (key : α → β) [DecidableEq β] (seen : List β)
    (l : List α) :
    ∀ r ∈ dropDupAux key seen l,
      key r ∉ seen ∧ l.find? (fun x => decide (key x = key r)) = some r := by
  induction l generalizing seen with
  | nil => simp [dropDupAux]
  | cons x xs ih =>
    intro r hr
    rw [dropDupAux] at hr
    by_cases h : key x ∈ seen
    · rw [if_pos h] at hr
      obtain ⟨hnot, hfind⟩ := ih seen r hr
      have hne : ¬(key x = key r) := fun hc => hnot (by rw [← hc]; exact h)
      exact ⟨hnot, by
        rw [List.find?_cons_of_neg _ (by simpa using hne)]; exact hfind⟩
    · rw [if_neg h] at hr
      rcases List.mem_cons.mp hr with rfl | h2
      · exact ⟨h, List.find?_cons_of_pos _ (by simp)⟩
      · obtain ⟨hnot, hfind⟩ := ih _ r h2
        have hne : ¬(key x = key r) := by
          intro hc
          exact hnot (by rw [← hc]; exact List.mem_cons_self _ _)
        refine ⟨fun hc => hnot (List.mem_cons_of_mem _ hc), ?_⟩
        rw [List.find?_cons_of_neg _ (by simpa using hne)]
        exact hfind

theorem dedup_pairwise (key : α → β) [DecidableEq β] (l : List α) :
    (dropDupKeepFirst key l).Pairwise (fun a b => key a ≠ key b) := by
  suffices h : ∀ seen, (dropDupAux key seen l).Pairwise (fun a b => key a ≠ key b)
    from h []
  induction l with
  | nil => intro seen; simp [dropDupAux]
  | cons x xs ih =>
    intro seen
    rw [dropDupAux]
    by_cases h : key x ∈ seen
    · rw [if_pos h]; exact ih seen
    · rw [if_neg h]
      refine List.pairwise_cons.mpr ⟨fun b hb => ?_, ih _⟩
      have hb2 := (dropDupAux_spec key (key x :: seen) xs b hb).1
      intro hc
      exact hb2 (by rw [← hc]; exact List.mem_cons_self _ _)

theorem dedup_find (key : α → β) [DecidableEq β] (l : List α) :
    ∀ r ∈ dropDupKeepFirst key l,
      l.find? (fun x => decide (key x = key r)) = some r :=
  fun r hr => (dropDupAux_spec key [] l r hr).2

theorem containsSub_iff (hay needle : List Char) :
    containsSub hay needle = true ↔ OccursIn needle hay := by
  unfold containsSub OccursIn
  rw [List.any_eq_true]
  constructor
  · rintro ⟨i, _, hpre⟩
    obtain ⟨t, ht⟩ := List.isPrefixOf_iff_prefix.mp hpre
    refine ⟨hay.take i, t, ?_⟩
    rw [List.append_assoc, ht, List.take_append_drop]
  · rintro ⟨pre, post, rfl⟩
    refine ⟨pre.length, List.mem_range.mpr ?_, ?_⟩
    · simp [List.length_append]
      omega
    · rw [List.append_assoc, List.drop_left]
      exact List.isPrefixOf_iff_prefix.mpr ⟨post, rfl⟩

/-! ## Claim theorems -/

/-- C6 counterexample: on the empty dataset every one of the four
transforms returns normally (the `if df.empty: return df` guard), so no
explicit failure is surfaced to the caller, contradicting the claim that
structurally invalid input — in particular an empty dataset — produces an
explicit failure rather than a result. -/
theorem empty_input_no_failure :
    isOkE (transform_stock_data []) = true ∧
    isOkE (transform_crypto_data []) = true ∧
    isOkE (transform_news_data []) = true ∧
    isOkE (transform_portfolio_data 0 []) = true :=
  ⟨rfl, rfl, rfl, rfl⟩

/-- C6 (corrected): each transform short-circuits on the empty dataset and
returns it unchanged as a normal result; no error is raised. -/
theorem empty_input_identity :
    transform_stock_data [] = Except.ok [] ∧
    transform_crypto_data [] = Except.ok [] ∧
    transform_news_data [] = Except.ok [] ∧
    transform_portfolio_data 0 [] = Except.ok [] :=
  ⟨rfl, rfl, rfl, rfl⟩

/-- C10: the rolling indicators are computed before the validation filter
and deduplication, so they can incorporate rows that are absent from the
output.  On `leakDemo` (closes -5 then 10 for one symbol) the surviving
row has close 10 but `ma_7 = 5/2`, the mean of the dropped close -5 and
10 — not 10, the mean of the closes present in the output. -/
theorem indicator_leak_across_validation :
    (rowsOf (transform_stock_data leakDemo)).map (fun r => r.close) = [10] ∧
    (rowsOf (transform_stock_data leakDemo)).map (fun r => r.ma_7) = [5 / 2] ∧
    listMean [(-5 : ℚ), 10] = 5 / 2 ∧
    listMean [(10 : ℚ)] = 10 ∧
    (5 / 2 : ℚ) ≠ 10 := by
  with_unfolding_all decide

/-- C1 counterexample: feeding two AAPL bars for the same date with closes
100 then 105, the transform keeps the FIRST row (close 100), not the
later one, and likewise the news transform keeps the first of two rows
sharing (title, symbol) — refuting the keep-last claim. -/
theorem dedup_keeps_first_not_last :
    (rowsOf (transform_stock_data dupDemoS)).map (fun r => r.close) = [100] ∧
    (rowsOf (transform_stock_data dupDemoS)).map (fun r => r.close) ≠ [105] ∧
    (rowsOf (transform_news_data dupDemoN)).map (fun r => r.url) = ["u1"] ∧
    (rowsOf (transform_news_data dupDemoN)).map (fun r => r.url) ≠ ["u2"] := by
  with_unfolding_all decide

/-- C1 (corrected): deduplication keeps the first occurrence.  For every
stock input the output has at most one row per (symbol, date), and the
surviving row for a key is the first row bearing that key in the
validated pre-deduplication frame; for every news input likewise on
(title, symbol) over the keyword-tagged frame. -/
theorem dedup_keep_first (sdf : List StockRaw) (ndf : List NewsRaw) :
    (rowsOf (transform_stock_data sdf)).Pairwise
        (fun a b => stockKey a ≠ stockKey b) ∧
    (∀ r ∈ rowsOf (transform_stock_data sdf),
      (stockPreDedup sdf).find? (fun x => decide (stockKey x = stockKey r))
        = some r) ∧
    (rowsOf (transform_news_data ndf)).Pairwise
        (fun a b => newsKey a ≠ newsKey b) ∧
    (∀ r ∈ rowsOf (transform_news_data ndf),
      (newsPreDedup ndf).find? (fun x => decide (newsKey x = newsKey r))
        = some r) := by
  refine ⟨?_, ?_, ?_, ?_⟩
  · unfold transform_stock_data
    split
    · simp [rowsOf]
    · exact dedup_pairwise stockKey _
  · unfold transform_stock_data
    split
    · simp [rowsOf]
    · exact dedup_find stockKey _
  · unfold transform_news_data
    split
    · simp [rowsOf]
    · exact dedup_pairwise newsKey _
  · unfold transform_news_data
    split
    · simp [rowsOf]
    · exact dedup_find newsKey _

/-- C1 witness: on the duplicated news input, the surviving row is found
as the first (title, symbol) match of the pre-deduplication frame. -/
theorem dedup_keep_first_witness :
    (newsPreDedup dupDemoN).find?
        (fun x => decide (newsKey x
          = newsKey (transformNewsRow
              { symbol := "AAPL", title := "Apple rises", url := "u1" })))
      = some (transformNewsRow
          { symbol := "AAPL", title := "Apple rises", url := "u1" }) :=
  (dedup_keep_first dupDemoS dupDemoN).2.2.2 _ (by with_unfolding_all decide)

/-- C3 counterexample: a crypto tick priced exactly 100.0 gets the
category "low", not "medium" — `pd.cut` bins are right-inclusive, so the
claimed left-inclusive boundaries are wrong. -/
theorem price_cut_boundary_100 :
    (rowsOf (transform_crypto_data cryptoDemo100)).map
        (fun r => r.price_category) = [some "low"] ∧
    (some "low" : Option String) ≠ some "medium" := by
  decide

/-- C3 (corrected): `price_category` buckets `price_usd` with
left-exclusive/right-inclusive boundaries: low on (0,100], medium on
(100,1000], high on (1000,10000], very_high on (10000,∞); prices at or
below 0 get a missing category.  In particular 100.0 is "low", 99.99 is
"low", and 10000.0 is "high". -/
theorem price_category_buckets (df : List CryptoRaw) :
    ∀ r ∈ rowsOf (transform_crypto_data df),
      (r.price_category = some "low" ↔ 0 < r.price_usd ∧ r.price_usd ≤ 100) ∧
      (r.price_category = some "medium"
        ↔ 100 < r.price_usd ∧ r.price_usd ≤ 1000) ∧
      (r.price_category = some "high"
        ↔ 1000 < r.price_usd ∧ r.price_usd ≤ 10000) ∧
      (r.price_category = some "very_high" ↔ 10000 < r.price_usd) ∧
      (r.price_category = none ↔ r.price_usd ≤ 0) := by
  intro r hr
  have hcat : r.price_category = priceCut r.price_usd := by
    unfold transform_crypto_data at hr
    split at hr
    · simp [rowsOf] at hr
    · simp only [rowsOf] at hr
      obtain ⟨a, _, ha⟩ := List.mem_filterMap.mp hr
      unfold transformCryptoRow at ha
      obtain ⟨p, _, hpr⟩ := Option.map_eq_some'.mp ha
      subst hpr
      rfl
  rw [hcat]
  unfold priceCut
  split_ifs with h1 h2 h3 h4 <;>
    refine ⟨?_, ?_, ?_, ?_, ?_⟩ <;>
      simp_all <;> first | linarith | (intro h; linarith)

/-- C3 witness: the transformed tick priced 50 is categorized, and the
bucket characterization instantiates to the concrete bounds 0 < 50 ≤ 100. -/
theorem price_category_buckets_witness : (0 : ℚ) < 50 ∧ (50 : ℚ) ≤ 100 :=
  (price_category_buckets cryptoDemo50
      { crypto_id := "ethereum", timestamp := 0, price_usd := 50,
        market_cap := none, price_category := some "low" }
      (by decide)).1.mp rfl

/-- C2 counterexample: a bar with open 0 and close 5 produces
`price_change_pct = +infinity` — not a missing value — because the pandas
float division `5 / 0` yields inf, refuting the claim that a zero open
gives a missing `price_change_pct`. -/
theorem zero_open_gives_infinity :
    (rowsOf (transform_stock_data zeroOpenDemo)).map
        (fun r => r.price_change_pct) = [EF.pinf] ∧
    EF.pinf ≠ EF.nan := by
  with_unfolding_all decide

/-- C2 (corrected): the batch always completes normally and no error is
raised, but when open = 0 the derived `price_change_pct` is a signed
infinity unless the close is also 0: +infinity for close > 0, -infinity
for close < 0, and NaN (missing) only for close = 0.  When open is
present and nonzero the column equals (close - open) / open * 100. -/
theorem price_change_pct_spec (raw : List StockRaw) (df : List StockNorm)
    (i : ℕ) (hi : i < df.length) :
    isOkE (transform_stock_data raw) = true ∧
    ((featRow df i).open_ = some 0 →
      (featRow df i).price_change_pct =
        (if 0 < (featRow df i).close then EF.pinf
         else if (featRow df i).close < 0 then EF.ninf else EF.nan)) ∧
    (∀ o, (featRow df i).open_ = some o → o ≠ 0 →
      (featRow df i).price_change_pct
        = EF.fin (((featRow df i).close - o) / o * 100)) := by
  rw [featRow_eq df i hi]
  simp only [mkFeatRow]
  refine ⟨?_, ?_, ?_⟩
  · unfold transform_stock_data
    split <;> rfl
  · intro h
    rw [h]
    simp only [osub, ofOpt, sub_zero, EF.div]
    split_ifs <;> rfl
  · intro o h ho
    rw [h]
    simp only [osub, ofOpt, EF.div, if_neg ho]
    rfl

/-- C2 witness: on the concrete normalized bar with open 0 and close 5
the theorem yields the +infinity cell. -/
theorem price_change_pct_spec_witness :
    (featRow zeroOpenNorm 0).price_change_pct = EF.pinf := by
  have h := (price_change_pct_spec zeroOpenDemo zeroOpenNorm 0 (by decide)).2.1
    (by with_unfolding_all decide)
  rw [h]
  with_unfolding_all decide

/-- C7: the normalizer missing-value policy.  Stock normalization equals
a single pass that drops exactly the rows whose close fails to parse,
coerces every other numeric cell (unparsable cells silently becoming
missing), and fills a missing volume with 0; crypto normalization drops
exactly the rows whose price_usd fails to parse; and both transforms
return normally on every typed input (coercion failures never raise). -/
theorem normalizer_policy (sdf : List StockRaw) (cdf : List CryptoRaw) :
    normalizeStock sdf
      = sdf.filterMap (fun r => (toNumeric r.close).map (fun c =>
          { symbol := r.symbol, date := r.date, open_ := toNumeric r.open_,
            high := toNumeric r.high, low := toNumeric r.low, close := c,
            volume := (toNumeric r.volume).getD 0 })) ∧
    rowsOf (transform_crypto_data cdf)
      = cdf.filterMap (fun r => (toNumeric r.price_usd).map (fun p =>
          { crypto_id := r.crypto_id, timestamp := r.timestamp, price_usd := p,
            market_cap := toNumeric r.market_cap,
            price_category := priceCut p })) ∧
    isOkE (transform_stock_data sdf) = true ∧
    isOkE (transform_crypto_data cdf) = true := by
  refine ⟨?_, ?_, ?_, ?_⟩
  · induction sdf with
    | nil => rfl
    | cons r t ih =>
      cases hc : toNumeric r.close with
      | none =>
        simp only [normalizeStock, List.map_cons, List.filter_cons,
          coerceStock, hc, Option.isSome_none, Bool.false_eq_true, if_neg,
          List.filterMap_cons, Option.map_none']
        exact ih
      | some c =>
        simp only [normalizeStock, List.map_cons, List.filter_cons,
          coerceStock, hc, Option.isSome_some, if_pos, List.filterMap_cons,
          Option.map_some']
        exact congrArg _ ih
  · unfold transform_crypto_data
    split
    · rename_i hemp
      rw [List.isEmpty_iff.mp hemp]
      rfl
    · rfl
  · unfold transform_stock_data
    split <;> rfl
  · unfold transform_crypto_data
    split <;> rfl

/-- C8: for every portfolio row, `cost_basis` is the product of quantity
and purchase price when both parse (and missing otherwise), and
`holding_days` is the floor of the day difference between the processing
instant and the purchase date — hence non-negative for past purchases,
truncated downward, and 0 for a holding purchased within the current
day. -/
theorem portfolio_derived_metrics (now : ℚ) (df : List PortfolioRaw)
    (i : ℕ) (hi : i < df.length) :
    (∀ q p, ((rowsOf (transform_portfolio_data now df)).getD i default).quantity = some q →
      ((rowsOf (transform_portfolio_data now df)).getD i default).purchase_price = some p →
      ((rowsOf (transform_portfolio_data now df)).getD i default).cost_basis = some (q * p)) ∧
    (((rowsOf (transform_portfolio_data now df)).getD i default).quantity = none ∨
      ((rowsOf (transform_portfolio_data now df)).getD i default).purchase_price = none →
      ((rowsOf (transform_portfolio_data now df)).getD i default).cost_basis = none) ∧
    ((rowsOf (transform_portfolio_data now df)).getD i default).holding_days
      = ⌊now - ((rowsOf (transform_portfolio_data now df)).getD i default).purchase_date⌋ ∧
    (((rowsOf (transform_portfolio_data now df)).getD i default).purchase_date ≤ now →
      0 ≤ ((rowsOf (transform_portfolio_data now df)).getD i default).holding_days) ∧
    (((rowsOf (transform_portfolio_data now df)).getD i default).purchase_date ≤ now →
      now - ((rowsOf (transform_portfolio_data now df)).getD i default).purchase_date < 1 →
      ((rowsOf (transform_portfolio_data now df)).getD i default).holding_days = 0) := by
  have hne : df.isEmpty = false := by
    cases df
    · simp at hi
    · rfl
  have hrows : rowsOf (transform_portfolio_data now df)
      = df.map (transformPortfolioRow now) := by
    unfold transform_portfolio_data
    rw [hne]
    rfl
  have hr : (rowsOf (transform_portfolio_data now df)).getD i default
      = transformPortfolioRow now (df.getD i default) := by
    rw [hrows, List.getD_eq_getElem?_getD, List.getElem?_map,
      List.getElem?_eq_getElem hi, List.getD_eq_getElem?_getD,
      List.getElem?_eq_getElem hi]
    rfl
  rw [hr]
  unfold transformPortfolioRow
  refine ⟨?_, ?_, rfl, ?_, ?_⟩
  · intro q p hq hp
    show omul (toNumeric (df.getD i default).quantity)
        (toNumeric (df.getD i default).purchase_price) = _
    rw [show toNumeric (df.getD i default).quantity = some q from hq,
      show toNumeric (df.getD i default).purchase_price = some p from hp]
    rfl
  · intro hcase
    show omul (toNumeric (df.getD i default).quantity)
        (toNumeric (df.getD i default).purchase_price) = none
    rcases hcase with hq | hp
    · rw [show toNumeric (df.getD i default).quantity = none from hq]
      rfl
    · rw [show toNumeric (df.getD i default).purchase_price = none from hp]
      cases toNumeric (df.getD i default).quantity <;> rfl
  · intro hle
    show (0 : ℤ) ≤ ⌊now - (df.getD i default).purchase_date⌋
    exact Int.le_floor.mpr (by push_cast; linarith)
  · intro hle hlt
    show ⌊now - (df.getD i default).purchase_date⌋ = 0
    rw [Int.floor_eq_zero_iff]
    constructor
    · linarith
    · exact hlt

/-- C8 witness: 2 units at 2500.00 give cost basis 5000.00, and a holding
purchased at the midnight starting the current processing half-day has
holding_days 0. -/
theorem portfolio_derived_metrics_witness :
    ((rowsOf (transform_portfolio_data (1/2) portDemo)).getD 0 default).cost_basis
      = some 5000 ∧
    ((rowsOf (transform_portfolio_data (1/2) portDemo)).getD 0 default).holding_days
      = 0 := by
  have h := portfolio_derived_metrics (1/2) portDemo 0 (by decide)
  constructor
  · have hc := h.1 2 2500 rfl rfl
    rw [hc]
    norm_num
  · exact h.2.2.2.2 (show (0 : ℚ) ≤ 1/2 by norm_num)
      (show (1/2 : ℚ) - 0 < 1 by norm_num)

theorem dropDupAux_subset (key : α → β) [DecidableEq β] (seen : List β)
    (l : List α) :
    ∀ r ∈ dropDupAux key seen l, r ∈ l := by
  induction l generalizing seen with
  | nil => simp [dropDupAux]
  | cons x xs ih =>
    intro r hr
    rw [dropDupAux] at hr
    by_cases h : key x ∈ seen
    · rw [if_pos h] at hr
      exact List.mem_cons_of_mem _ (ih seen r hr)
    · rw [if_neg h] at hr
      rcases List.mem_cons.mp hr with rfl | h2
      · exact List.mem_cons_self _ _
      · exact List.mem_cons_of_mem _ (ih _ r h2)

/-- C9: for every news row and each keyword of the fixed vocabulary, the
boolean flag is true exactly when the keyword occurs as a
case-insensitive contiguous substring of the (trimmed) title — plain
lexical containment, no word boundaries. -/
theorem news_keyword_flags (df : List NewsRaw) :
    ∀ r ∈ rowsOf (transform_news_data df), ∀ (j : ℕ) (kw : String) (b : Bool),
      newsKeywords[j]? = some kw → r.has_flags[j]? = some b →
      (b = true ↔ OccursIn kw.data (lowerChars r.title)) := by
  intro r hr j kw b hkw hflag
  have hmem : r ∈ newsPreDedup df := by
    unfold transform_news_data at hr
    split at hr
    · simp [rowsOf] at hr
    · simp only [rowsOf] at hr
      exact dropDupAux_subset newsKey [] _ r hr
  obtain ⟨raw, _, hraw⟩ := List.mem_map.mp hmem
  subst hraw
  have hb : b = containsSub (lowerChars raw.title.trim) kw.data := by
    have : (transformNewsRow raw).has_flags[j]?
        = (newsKeywords[j]?).map
            (fun k => containsSub (lowerChars raw.title.trim) k.data) := by
      show (newsKeywords.map
          (fun k => containsSub (lowerChars raw.title.trim) k.data))[j]? = _
      exact List.getElem?_map _ _ _
    rw [this, hkw] at hflag
    exact (Option.some.injEq _ _).mp hflag.symm
  subst hb
  show containsSub (lowerChars (transformNewsRow raw).title) kw.data = true ↔ _
  exact containsSub_iff _ _

/-- C9 witness: in the title "Company reports record profitability" the
keyword "profit" occurs as a case-insensitive substring (the documented
substring-match imprecision), and the corresponding flag column is true. -/
theorem news_keyword_flags_witness :
    OccursIn "profit".data
      (lowerChars (transformNewsRow
        { symbol := "ACME", title := "Company reports record profitability",
          url := "u" }).title) ∧
    hasProfit (transformNewsRow
      { symbol := "ACME", title := "Company reports record profitability",
        url := "u" }) = true := by
  constructor
  · exact (news_keyword_flags profDemo
      (transformNewsRow
        { symbol := "ACME", title := "Company reports record profitability",
          url := "u" })
      (by with_unfolding_all decide) 4 "profit" true rfl
      (by with_unfolding_all decide)).mp rfl
  · with_unfolding_all decide

theorem pctChangeLast_pair (A : List ℚ) (a b : ℚ) :
    pctChangeLast (A ++ [a, b]) = EF.div (EF.fin (b - a)) (EF.fin a) := by
  unfold pctChangeLast
  rw [List.reverse_append]
  rfl

theorem pctChangeLast_single (x : ℚ) : pctChangeLast [x] = EF.nan := rfl

/-- C4: under per-symbol date order, `daily_return` is NaN (missing, not
zero) on the first row of each symbol, and on every later row it is the
float division (close_t - close_prev) / close_prev against the
immediately preceding row of the same symbol. -/
theorem daily_return_spec (df : List StockNorm) (hs : DateSortedPerSymbol df)
    (i : ℕ) (hi : i < df.length) :
    ((∀ j, j < i → rowSymbol df j ≠ rowSymbol df i) →
      (featRow df i).daily_return = EF.nan) ∧
    (∀ p, p < i → rowSymbol df p = rowSymbol df i →
      (∀ k, p < k → k < i → rowSymbol df k ≠ rowSymbol df i) →
      (featRow df i).daily_return
        = EF.div (EF.fin ((featRow df i).close - closeAt df p))
            (EF.fin (closeAt df p))) ∧
    EF.nan ≠ EF.fin 0 := by
  rw [featRow_eq df i hi]
  refine ⟨?_, ?_, by decide⟩
  · intro hfirst
    show dailyReturnAt df i = EF.nan
    have hidx : symIdx df (rowSymbol df i) i = [i] := by
      unfold symIdx
      rw [filter_range_succ,
        filter_range_nil _ _ (fun k hk => by simp [hfirst k hk])]
      simp
    unfold dailyReturnAt closesAt
    rw [hidx]
    exact pctChangeLast_single _
  · intro p hp hsymp hbet
    show dailyReturnAt df i
        = EF.div (EF.fin (closeAt df i - closeAt df p)) (EF.fin (closeAt df p))
    have hidx : symIdx df (rowSymbol df i) i
        = ((List.range p).filter
            (fun j => decide (rowSymbol df j = rowSymbol df i))) ++ [p, i] := by
      unfold symIdx
      rw [filter_range_succ,
        filter_range_stable _ p i hp (fun k h1 h2 => by simp [hbet k h1 h2]),
        filter_range_succ]
      simp [hsymp]
    unfold dailyReturnAt closesAt
    rw [hidx, List.map_append]
    show pctChangeLast (_ ++ [closeAt df p, closeAt df i]) = _
    exact pctChangeLast_pair _ _ _

/-- C4 witness: on the three-bar sorted series, row 1 has the concrete
return (20 - 10) / 10. -/
theorem daily_return_spec_witness :
    (featRow stockW 1).daily_return
      = EF.div (EF.fin ((featRow stockW 1).close - closeAt stockW 0))
          (EF.fin (closeAt stockW 0)) :=
  (daily_return_spec stockW (by decide) 1 (by decide)).2.1 0 (by decide)
    (by decide) (fun k h1 h2 => absurd (by omega : (1 : ℕ) ≤ 0) (by omega))

/-- C5: under per-symbol date order, the k-th row of a symbol carries
`ma_7` (resp. `ma_30`) equal to the mean of the trailing min(k,7)
(resp. min(k,30)) closes of that symbol, and `volatility_30d` equal to
the rolling sample standard deviation of the trailing up-to-30
`daily_return` cells of that symbol (carried here as its square, the
sample variance, with the actual column recovered by `Real.sqrt`); when
the row is the first or second of its symbol the window holds at most
one non-NaN return, and the cell is missing, not zero. -/
theorem rolling_indicator_spec (df : List StockNorm) (hs : DateSortedPerSymbol df)
    (i : ℕ) (hi : i < df.length) :
    (featRow df i).ma_7
        = listMean (lastN 7 ((symCloses df (rowSymbol df i)).take
            (symCountPrefix df (rowSymbol df i) i))) ∧
    (lastN 7 ((symCloses df (rowSymbol df i)).take
        (symCountPrefix df (rowSymbol df i) i))).length
      = min (symCountPrefix df (rowSymbol df i) i) 7 ∧
    (featRow df i).ma_30
        = listMean (lastN 30 ((symCloses df (rowSymbol df i)).take
            (symCountPrefix df (rowSymbol df i) i))) ∧
    (lastN 30 ((symCloses df (rowSymbol df i)).take
        (symCountPrefix df (rowSymbol df i) i))).length
      = min (symCountPrefix df (rowSymbol df i) i) 30 ∧
    (featRow df i).volatility_30d_sq
      = varOfWindow (lastN 30 ((((addFeatures df).take (i + 1)).filter
          (fun r => decide (r.symbol = rowSymbol df i))).map
            (fun r => r.daily_return))) ∧
    volatility_30d (featRow df i)
      = (varOfWindow (lastN 30 ((((addFeatures df).take (i + 1)).filter
          (fun r => decide (r.symbol = rowSymbol df i))).map
            (fun r => r.daily_return)))).map Real.sqrt ∧
    (symCountPrefix df (rowSymbol df i) i ≤ 2 →
      (featRow df i).volatility_30d_sq = none) := by
  have hcl : closesAt df (rowSymbol df i) i
      = (symCloses df (rowSymbol df i)).take
          (symCountPrefix df (rowSymbol df i) i) := by
    rw [closesAt_eq df _ i hi, symCloses_take]
  have hketake : ((symCloses df (rowSymbol df i)).take
      (symCountPrefix df (rowSymbol df i) i)).length
        = symCountPrefix df (rowSymbol df i) i := by
    rw [symCloses_take]
    simp [symCountPrefix]
  have hcol := featSym_col df (rowSymbol df i) i hi
  have hvol : (featRow df i).volatility_30d_sq
      = varOfWindow (lastN 30
          ((symIdx df (rowSymbol df i) i).map (dailyReturnAt df))) := by
    rw [featRow_eq df i hi]
    rfl
  refine ⟨?_, ?_, ?_, ?_, ?_, ?_, ?_⟩
  · rw [featRow_eq df i hi]
    show maAt 7 df i = _
    unfold maAt
    rw [hcl]
  · simp only [lastN, List.length_drop, hketake]
    omega
  · rw [featRow_eq df i hi]
    show maAt 30 df i = _
    unfold maAt
    rw [hcl]
  · simp only [lastN, List.length_drop, hketake]
    omega
  · rw [hcol]
    exact hvol
  · unfold volatility_30d
    rw [hcol, hvol]
  · intro hk
    rw [hvol]
    have hlen : (symIdx df (rowSymbol df i) i).length
        = symCountPrefix df (rowSymbol df i) i := by
      have h1 := congrArg List.length hcl
      simpa [closesAt, List.length_map, hketake] using h1
    have himem : i ∈ symIdx df (rowSymbol df i) i := by
      unfold symIdx
      exact List.mem_filter.mpr ⟨List.mem_range.mpr (by omega), by simp⟩
    rcases hshape : symIdx df (rowSymbol df i) i with _ | ⟨j0, rest⟩
    · rw [hshape] at himem
      simp at himem
    · have hshape2 : (List.range (i + 1)).filter
          (fun j => decide (rowSymbol df j = rowSymbol df i)) = j0 :: rest := by
        unfold symIdx at hshape
        exact hshape
      obtain ⟨hPj0, hmin⟩ := filter_range_head _ _ _ _ hshape2
      have hdr0 : dailyReturnAt df j0 = EF.nan := by
        have hs0 : rowSymbol df j0 = rowSymbol df i := by simpa using hPj0
        unfold dailyReturnAt closesAt
        rw [hs0]
        have hidx0 : symIdx df (rowSymbol df i) j0 = [j0] := by
          unfold symIdx
          rw [filter_range_succ, filter_range_nil _ _ (fun k hk => hmin k hk)]
          simp [hPj0]
        rw [hidx0]
        exact pctChangeLast_single _
      have hrest : rest.length ≤ 1 := by
        rw [hshape] at hlen
        simp only [List.length_cons] at hlen
        omega
      rcases rest with _ | ⟨j1, rest2⟩
      · rw [List.map_cons, List.map_nil, hdr0]
        rfl
      · rcases rest2 with _ | ⟨j2, rest3⟩
        · rw [List.map_cons, List.map_cons, List.map_nil, hdr0]
          rcases dailyReturnAt df j1 with q | _ | _ | _ <;> rfl
        · exfalso
          simp at hrest

/-- C5 witness: on the three-bar sorted series, row 2 has ma_7 equal to
the mean of its three closes (20), and row 1, the second row of its
symbol, has a missing volatility cell. -/
theorem rolling_indicator_spec_witness :
    (featRow stockW 2).ma_7 = 20 ∧
    (featRow stockW 1).volatility_30d_sq = none := by
  have h2 := rolling_indicator_spec stockW (by decide) 2 (by decide)
  have h1 := rolling_indicator_spec stockW (by decide) 1 (by decide)
  constructor
  · rw [h2.1]
    with_unfolding_all decide
  · exact h1.2.2.2.2.2.2 (by with_unfolding_all decide)
